import Mathlib

/-!
Shallow embedding of the message preprocessing and delivery correlation
core of the SC_Sub_Poster chat client (src/preprocessing.rs and
src/chatroom.rs).  Text is modelled as `List Char`; Rust byte indices
produced by `str::find` always fall on character boundaries, so the
character-level model is faithful.  Machine integers (`u32`, `u64`) are
modelled as `Nat`; none of the verified operations perform arithmetic
that can overflow.
-/

/-- Character lists stand in for Rust `&str` / `String` values. -/
abbrev Str := List Char

/-- Rust `char::is_whitespace`: the Unicode `White_Space` property. -/
def is_unicode_whitespace (c : Char) : Bool :=
  (0x09 ≤ c.toNat && c.toNat ≤ 0x0D) || c.toNat == 0x20 || c.toNat == 0x85 ||
  c.toNat == 0xA0 || c.toNat == 0x1680 ||
  (0x2000 ≤ c.toNat && c.toNat ≤ 0x200A) || c.toNat == 0x2028 ||
  c.toNat == 0x2029 || c.toNat == 0x202F || c.toNat == 0x205F ||
  c.toNat == 0x3000

/-- Rust `str::trim`: strip Unicode whitespace from both ends. -/
def trim_ws (s : Str) : Str :=
  ((s.dropWhile is_unicode_whitespace).reverse.dropWhile is_unicode_whitespace).reverse

/-- Index of the first character satisfying `p` (Rust `str::find`). -/
def find_char (p : Char → Bool) : Str → Option Nat
  | [] => none
  | c :: cs => if p c then some 0 else (find_char p cs).map (· + 1)

/-- Rust `str::splitn(2, sep)`: the part before the first `sep`, and the
part after it when `sep` occurs. -/
def split_first (sep : Char) : Str → Str × Option Str
  | [] => ([], none)
  | c :: cs =>
    if c = sep then ([], some cs)
    else
      let r := split_first sep cs
      (c :: r.1, r.2)

/-- The BBCode allow-list `ALLOWED_BBCODE_TAGS` (preprocessing.rs). -/
def ALLOWED_BBCODE_TAGS : List Str :=
  ["emoticon", "code", "pre", "img", "url", "spoiler", "quote", "random",
   "flip", "tradeofferlink", "tradeoffer", "sticker", "gameinvite", "og",
   "roomeffect"].map String.toList

/-- `BBCodeNode` (preprocessing.rs).  The source's `attrs` map holds at
most the single key `"value"`, modelled as `value_attr`; the source's
`content` field is always set to `None` by the parser and is omitted. -/
structure BBCodeNode where
  tag : Str
  value_attr : Option Str
deriving DecidableEq, Repr

/-- `BBCodeContent`: plain text or a tag node (preprocessing.rs). -/
inductive BBCodeContent where
  | str (s : Str)
  | node (n : BBCodeNode)
deriving DecidableEq, Repr

namespace bbcode

/-- The private `TagPosition` enum of the `bbcode` module. -/
inductive TagPosition where
  | found (text_before tag_content : Str) (tag_length : Nat)
  | end_of_text (remaining : Str)
deriving DecidableEq, Repr

/-- `Parser::find_next_tag`: locate the first `[`, then the first `]`
after it; the tag content is the text strictly between them and the tag
length runs from the start of the suffix through the `]`. -/
def find_next_tag (text : Str) : TagPosition :=
  match find_char (· = '[') text with
  | none => .end_of_text text
  | some tag_start =>
    match find_char (· = ']') (text.drop tag_start) with
    | none => .end_of_text text
    | some tag_end =>
      .found (text.take tag_start)
        (((text.drop tag_start).drop 1).take (tag_end - 1))
        (tag_start + tag_end + 1)

/-- `Parser::extract_tag_attributes` fused with `Parser::parse_tag`:
split the tag content on the first `=`, trim the name, check it against
the allow-list, and keep a trimmed non-empty right-hand side as the
single `value` attribute. -/
def parse_tag (allowed_tags : List Str) (tag_content : Str) : Option BBCodeNode :=
  let parts := split_first '=' tag_content
  let tag_name := trim_ws parts.1
  if allowed_tags.contains tag_name then
    let value : Option Str :=
      match parts.2 with
      | none => none
      | some v => let t := trim_ws v; if t = [] then none else some t
    some { tag := tag_name, value_attr := value }
  else
    none

theorem find_char_some_lt {p : Char → Bool} :
    ∀ {l : Str} {n : Nat}, find_char p l = some n → n < l.length := by
  intro l
  induction l with
  | nil => intro n h; simp [find_char] at h
  | cons c cs ih =>
    intro n h
    simp only [find_char] at h
    by_cases hc : p c
    · simp [hc] at h
      simp only [List.length_cons]
      omega
    · simp [hc] at h
      obtain ⟨m, hm, rfl⟩ := h
      have := ih hm
      simp only [List.length_cons]
      omega

theorem find_next_tag_found_bound {text b c : Str} {len : Nat}
    (h : find_next_tag text = .found b c len) :
    0 < len ∧ len ≤ text.length := by
  unfold find_next_tag at h
  split at h
  · simp at h
  · rename_i tag_start hs
    split at h
    · simp at h
    · rename_i tag_end he
      simp only [TagPosition.found.injEq] at h
      obtain ⟨-, -, rfl⟩ := h
      have h1 := find_char_some_lt hs
      have h2 := find_char_some_lt he
      rw [List.length_drop] at h2
      omega

theorem find_next_tag_end_eq {text r : Str}
    (h : find_next_tag text = .end_of_text r) : r = text := by
  unfold find_next_tag at h
  split at h
  · simp at h; exact h.symm
  · split at h
    · simp at h; exact h.symm
    · simp at h

/-- The scanning loop of `Parser::parse`, with the suffix of the message
still to be scanned (`rest`), the pending literal-text accumulator
(`current_text`) and the output vector (`parsed`) made explicit.  When a
tag is recognized the pending literal is flushed and the node emitted;
when it is rejected the whole scanned span `rest.take tag_length` (which
includes `text_before` a second time, exactly as
`current_text.push_str(&message[i..i + tag_length])` does in the source)
is appended to the pending literal.  Every iteration consumes at least
one character of `rest` (`find_next_tag_found_bound`), so the `fuel`
counter supplied by `parse` below is never exhausted; for uniformity the
fuel-exhausted arm mirrors the end-of-text exit (it is only ever reached
with `rest = []`). -/
def parse_loop (allowed_tags : List Str) : Nat → Str → Str →
    List BBCodeContent → List BBCodeContent
  | 0, rest, current_text, parsed =>
    parsed ++ (if current_text ++ rest = [] then [] else [.str (current_text ++ rest)])
  | fuel + 1, rest, current_text, parsed =>
    match find_next_tag rest with
    | .end_of_text remaining =>
      let final_text := current_text ++ remaining
      parsed ++ (if final_text = [] then [] else [.str final_text])
    | .found text_before tag_content tag_length =>
      let cur := current_text ++ text_before
      match parse_tag allowed_tags tag_content with
      | some node =>
        parse_loop allowed_tags fuel (rest.drop tag_length) []
          (parsed ++ (if cur = [] then [] else [.str cur]) ++ [.node node])
      | none =>
        parse_loop allowed_tags fuel (rest.drop tag_length)
          (cur ++ rest.take tag_length) parsed

/-- `Parser::parse`: empty input short-circuits to a single empty text
element; otherwise run the scanning loop over the whole message. -/
def parse (allowed_tags : List Str) (message : Str) : List BBCodeContent :=
  if message = [] then [.str message]
  else parse_loop allowed_tags message.length message [] []

end bbcode

/-- `MessagePreprocessor::parse_bbcode`: parse with the fixed allow-list. -/
def parse_bbcode (message : Str) : List BBCodeContent :=
  bbcode.parse ALLOWED_BBCODE_TAGS message

/-- The `MENTION_ALL` broadcast literal (preprocessing.rs). -/
def MENTION_ALL : Str := "@all".toList

/-- The `MENTION_HERE` broadcast literal (preprocessing.rs). -/
def MENTION_HERE : Str := "@here".toList

/-- `MENTION_PUNCTUATION`: characters trimmed from mention tokens. -/
def MENTION_PUNCTUATION : Str := "!?,.;".toList

/-- `token.trim_matches(|c| MENTION_PUNCTUATION.contains(c))`: strip the
fixed punctuation set from both ends of a token. -/
def trim_mention_punctuation (token : Str) : Str :=
  ((token.dropWhile (MENTION_PUNCTUATION.contains ·)).reverse.dropWhile
    (MENTION_PUNCTUATION.contains ·)).reverse

/-- `MessagePreprocessor::is_steam_id_format`: the token starts with
`[U:1:` and ends with `]`. -/
def is_steam_id_format (token : Str) : Bool :=
  "[U:1:".toList.isPrefixOf token && "]".toList.isSuffixOf token

/-- Numeric value of a digit string. -/
def digits_to_nat (l : Str) : Nat :=
  l.foldl (fun a c => a * 10 + (c.toNat - '0'.toNat)) 0

/-- The SteamID64 value of universe-1 individual account `accountid`
with the default desktop instance, as produced by the external
`steamid_ng` crate for a `[U:1:accountid]` token. -/
def steam3_individual_base : Nat := 76561197960265728

/-- Modelled from the spec: the string-to-id conversion of the external
`steamid_ng` crate (`SteamID::try_from(&str)`), which the spec describes
at the boundary as parsing "a fixed bracketed-numeric-id literal pattern
(prefix + digits + closing bracket)" into a `UserId` (an opaque 64-bit
account identifier), failing on malformed near-matches.  A token
`[U:1:digits]` with a non-empty all-digit account id below `2^32` parses
to the 64-bit id; anything else fails. -/
def steam_id_try_from (token : Str) : Option Nat :=
  if "[U:1:".toList.isPrefixOf token && "]".toList.isSuffixOf token then
    let digits := (token.drop 5).take (token.length - 6)
    if digits ≠ [] && digits.all Char.isDigit && digits_to_nat digits < 2 ^ 32 then
      some (steam3_individual_base + digits_to_nat digits)
    else none
  else none

/-- `ChatMentions` (preprocessing.rs); `mention_steamids` holds the raw
64-bit SteamID values of the `MentionSteamId` wrappers. -/
structure ChatMentions where
  mention_all : Bool
  mention_here : Bool
  mention_steamids : List Nat
deriving DecidableEq, Repr

/-- `ChatMentions::has_any_mentions`. -/
def ChatMentions.has_any_mentions (m : ChatMentions) : Bool :=
  m.mention_all || m.mention_here || !m.mention_steamids.isEmpty

/-- `MessagePreprocessor::process_mention_token`: trim punctuation, then
check the broadcast literals and the SteamID format in order, with early
return after a broadcast match. -/
def process_mention_token (token : Str) (mentions : ChatMentions) : ChatMentions :=
  let cleaned_token := trim_mention_punctuation token
  if cleaned_token = MENTION_ALL then
    { mentions with mention_all := true }
  else if cleaned_token = MENTION_HERE then
    { mentions with mention_here := true }
  else if is_steam_id_format cleaned_token then
    match steam_id_try_from cleaned_token with
    | some steam_id =>
      { mentions with mention_steamids := mentions.mention_steamids ++ [steam_id] }
    | none => mentions
  else
    mentions

/-- Helper for `split_whitespace`: `acc` is the pending token, reversed. -/
def split_whitespace_aux : Str → Str → List Str
  | [], acc => if acc = [] then [] else [acc.reverse]
  | c :: rest, acc =>
    if is_unicode_whitespace c then
      if acc = [] then split_whitespace_aux rest []
      else acc.reverse :: split_whitespace_aux rest []
    else
      split_whitespace_aux rest (c :: acc)

/-- Rust `str::split_whitespace`: the maximal runs of non-whitespace
characters, in order. -/
def split_whitespace (s : Str) : List Str :=
  split_whitespace_aux s []

/-- `MessagePreprocessor::extract_mentions`: fold every whitespace token
through `process_mention_token`, then return the accumulated struct only
when some signal fired. -/
def extract_mentions (message : Str) : Option ChatMentions :=
  let mentions := (split_whitespace message).foldl
    (fun m raw_token => process_mention_token raw_token m)
    { mention_all := false, mention_here := false, mention_steamids := [] }
  if mentions.has_any_mentions then some mentions else none

/-- `PreprocessedMessage` (preprocessing.rs); `u32` fields are `Nat`. -/
structure PreprocessedMessage where
  original_message : Str
  modified_message : Str
  message_bbcode_parsed : List BBCodeContent
  mentions : Option ChatMentions
  server_timestamp : Option Nat
  ordinal : Option Nat
deriving DecidableEq, Repr

/-- `MessagePreprocessor::preprocess_message`. -/
def preprocess_message (message : Str) : PreprocessedMessage :=
  { original_message := message
    modified_message := message
    message_bbcode_parsed := parse_bbcode message
    mentions := extract_mentions message
    server_timestamp := none
    ordinal := none }

/-- The scanning loop of Rust `str::replace(from, to)`: replace the
non-overlapping occurrences of `from`, left to right.  Every step
consumes at least one character of `s`, so the fuel supplied by
`replace_all` below is never exhausted; the fuel-exhausted arm is only
ever reached with `s = []`. -/
def replace_all_loop (from_pat to_pat : Str) : Nat → Str → Str
  | 0, s => s
  | fuel + 1, s =>
    match s with
    | [] => []
    | c :: rest =>
      if from_pat.isPrefixOf (c :: rest) && !from_pat.isEmpty then
        to_pat ++ replace_all_loop from_pat to_pat fuel ((c :: rest).drop from_pat.length)
      else
        c :: replace_all_loop from_pat to_pat fuel rest

/-- Rust `s.replace(from, to)` on character lists. -/
def replace_all (s from_pat to_pat : Str) : Str :=
  replace_all_loop from_pat to_pat s.length s

/-- `MessagePreprocessor::prepare_message_for_sending`:
`message.replace("\\[", "[").replace("\\]", "]")`. -/
def prepare_message_for_sending (message : Str) : Str :=
  replace_all (replace_all message "\\[".toList "[".toList) "\\]".toList "]".toList

/-- `MessagePreprocessor::process_response`: re-run the parser and the
extractor over the server-modified text and stamp both metadata fields
with `Some` unconditionally (a raw ordinal of `0` stays `Some 0`). -/
def process_response (original_message modified_message : Str)
    (server_timestamp ordinal : Nat) : PreprocessedMessage :=
  { original_message := original_message
    modified_message := modified_message
    message_bbcode_parsed := parse_bbcode modified_message
    mentions := extract_mentions modified_message
    server_timestamp := some server_timestamp
    ordinal := some ordinal }

/-- Substring containment, Rust `str::contains`. -/
def contains_sub (hay needle : Str) : Bool :=
  hay.tails.any (fun t => needle.isPrefixOf t)

namespace helpers

/-- `helpers::has_mentions`: the message contains `@all`, `@here`, or
any `@` character. -/
def has_mentions (message : Str) : Bool :=
  contains_sub message MENTION_ALL || contains_sub message MENTION_HERE ||
    contains_sub message ['@']

end helpers

/-- `SendGroupMessageParams` (chatroom.rs). -/
structure SendGroupMessageParams where
  chat_group_id : Nat
  chat_id : Nat
  message : Str
  echo_to_sender : Bool
deriving DecidableEq, Repr

/-- The fields of `CChatRoom_SendChatMessage_Request` that
`build_send_message_request` populates. -/
structure SendChatMessageRequest where
  chat_group_id : Nat
  chat_id : Nat
  message : Str
  echo_to_sender : Bool
deriving DecidableEq, Repr

/-- The fields of `CChatRoom_SendChatMessage_Response` that the send
path reads; `has_ordinal` models protobuf field presence. -/
structure SendChatMessageResponse where
  has_ordinal : Bool
  ordinal : Nat
  modified_message : Str
  server_timestamp : Nat
deriving DecidableEq, Repr

/-- The fields of `CChatRoom_IncomingChatMessage_Notification` that the
client reads. -/
structure IncomingChatMessageNotification where
  chat_group_id : Nat
  chat_id : Nat
  steamid_sender : Nat
  chat_name : Str
  message : Str
  timestamp : Nat
  ordinal : Nat
deriving DecidableEq, Repr

/-- `ChatRoomMessaging::build_send_message_request`: un-escape the
message text and copy the ids and the echo flag. -/
def build_send_message_request (params : SendGroupMessageParams) : SendChatMessageRequest :=
  { chat_group_id := params.chat_group_id
    chat_id := params.chat_id
    message := prepare_message_for_sending params.message
    echo_to_sender := params.echo_to_sender }

/-- `ChatRoomMessaging::process_send_message_response`: a response
without an ordinal field is treated as raw ordinal `0`, then handed to
`process_response`. -/
def process_send_message_response (params : SendGroupMessageParams)
    (response : SendChatMessageResponse) : PreprocessedMessage :=
  let ordinal := if response.has_ordinal then response.ordinal else 0
  process_response params.message response.modified_message
    response.server_timestamp ordinal

/-- `ChatRoomMessaging::wait_for_echo_notification`: scan the throttled
notification stream for the first item whose room pair matches the one
just sent to.  `arrivals` lists the notifications the stream yields
inside the fixed 5-second timeout window, in order; an exhausted list
models the timeout (or the stream ending), which the source reports as
`Err` and the caller turns into a logged warning. -/
def wait_for_echo_notification (chat_group_id chat_id : Nat)
    (arrivals : List IncomingChatMessageNotification) :
    Option IncomingChatMessageNotification :=
  arrivals.find? (fun n => n.chat_group_id == chat_group_id && n.chat_id == chat_id)

/-- `ChatRoomMessaging::send_group_message` after the transport returned
`response`: build the preprocessed result and, when the caller asked for
an echo and the ordinal is absent, backfill ordinal and timestamp from
the first matching echo notification (`arrivals` as above). -/
def send_group_message (params : SendGroupMessageParams)
    (response : SendChatMessageResponse)
    (arrivals : List IncomingChatMessageNotification) : PreprocessedMessage :=
  let final_preprocessed := process_send_message_response params response
  if params.echo_to_sender && final_preprocessed.ordinal.isNone then
    match wait_for_echo_notification params.chat_group_id params.chat_id arrivals with
    | some notification =>
      { final_preprocessed with
          ordinal := some notification.ordinal
          server_timestamp := some notification.timestamp }
    | none => final_preprocessed
  else
    final_preprocessed

/-- `EnhancedGroupChatMessage` (chatroom.rs). -/
structure EnhancedGroupChatMessage where
  chat_group_id : Nat
  chat_id : Nat
  sender_steam_id : Nat
  message : Str
  timestamp : Nat
  chat_name : Str
  ordinal : Nat
  preprocessed : PreprocessedMessage
deriving DecidableEq, Repr

/-- `EnhancedGroupChatMessage::from_notification`. -/
def EnhancedGroupChatMessage.from_notification
    (notification : IncomingChatMessageNotification) : EnhancedGroupChatMessage :=
  { chat_group_id := notification.chat_group_id
    chat_id := notification.chat_id
    sender_steam_id := notification.steamid_sender
    message := notification.message
    timestamp := notification.timestamp
    chat_name := notification.chat_name
    ordinal := notification.ordinal
    preprocessed := preprocess_message notification.message }

/-- `NotificationDispatchError` (chatroom.rs); the network-error and
callback-error payload types are abstract. -/
inductive NotificationDispatchError (E C : Type) where
  | stream (e : E)
  | callback (source : C)
deriving DecidableEq, Repr

/-- Observable outcome of one run of `NotificationStream::for_each`:
which items reached the handler (in order), whether the fixed backoff
sleep happened, and the returned value. -/
structure ForEachRun (T E C : Type) where
  handled : List T
  slept : Bool
  result : Except (NotificationDispatchError E C) Unit

/-- `NotificationStream::for_each`: the stream is the list of its items
(`Ok` payloads or a stream-level error), consumed in order.  A handler
failure stops the loop at once and is propagated as a `Callback` error; a
stream-level error sleeps the fixed backoff and then stops the loop with
a `Stream` error; stream end returns `Ok`. -/
def for_each {T E C : Type} (handler : T → Except C Unit) :
    List (Except E T) → ForEachRun T E C
  | [] => ⟨[], false, .ok ()⟩
  | .ok item :: rest =>
    match handler item with
    | .ok _ =>
      let r := for_each handler rest
      ⟨item :: r.handled, r.slept, r.result⟩
    | .error source => ⟨[item], false, .error (.callback source)⟩
  | .error err :: _ => ⟨[], true, .error (.stream err)⟩

/-- `ChatRoomNotifications::listen_for_group_messages_with`: run the
group-message stream through `for_each`, building the enhanced record
for each notification before invoking the user callback. -/
def listen_for_group_messages_with {E C : Type}
    (callback : EnhancedGroupChatMessage → Except C Unit)
    (items : List (Except E IncomingChatMessageNotification)) :
    ForEachRun IncomingChatMessageNotification E C :=
  for_each
    (fun notification => callback (EnhancedGroupChatMessage.from_notification notification))
    items

namespace bbcode

theorem take_ne_nil_of_pos {l : Str} {n : Nat} (hn : 0 < n) (hl : l ≠ []) :
    l.take n ≠ [] := by
  cases l with
  | nil => exact absurd rfl hl
  | cons c cs =>
    cases n with
    | zero => omega
    | succ m => simp [List.take]

theorem parse_loop_length_pos (allowed_tags : List Str) :
    ∀ (fuel : Nat) (rest current_text : Str) (parsed : List BBCodeContent),
      rest.length ≤ fuel →
      (rest ≠ [] ∨ current_text ≠ [] ∨ parsed ≠ []) →
      0 < (parse_loop allowed_tags fuel rest current_text parsed).length := by
  intro fuel
  induction fuel with
  | zero =>
    intro rest cur parsed hlen hne
    have hrest : rest = [] := List.eq_nil_of_length_eq_zero (Nat.le_zero.mp hlen)
    subst hrest
    rcases hne with h | h | h
    · exact absurd rfl h
    · simp [parse_loop, h]
    · by_cases hc : cur = [] <;> simp [parse_loop, hc, h, List.length_pos]
  | succ fuel ih =>
    intro rest cur parsed hlen hne
    cases hft : find_next_tag rest with
    | end_of_text remaining =>
      have hrr : remaining = rest := find_next_tag_end_eq hft
      simp only [parse_loop, hft, hrr]
      by_cases hc : cur ++ rest = []
      · rcases hne with h | h | h
        · exact absurd (List.append_eq_nil.mp hc).2 h
        · exact absurd (List.append_eq_nil.mp hc).1 h
        · simp [hc, List.length_pos, h]
      · simp [hc, List.length_pos]
    | found text_before tag_content tag_length =>
      obtain ⟨hpos, hle⟩ := find_next_tag_found_bound hft
      have hrest : rest ≠ [] := by
        intro hcontra
        subst hcontra
        simp at hle
        omega
      have hlen' : (rest.drop tag_length).length ≤ fuel := by
        simp only [List.length_drop]
        omega
      simp only [parse_loop, hft]
      cases hpt : parse_tag allowed_tags tag_content with
      | some node =>
        simp only [hpt]
        exact ih _ _ _ hlen' (Or.inr (Or.inr (by simp)))
      | none =>
        simp only [hpt]
        refine ih _ _ _ hlen' (Or.inr (Or.inl ?_))
        intro hcontra
        exact take_ne_nil_of_pos hpos hrest (List.append_eq_nil.mp hcontra).2

end bbcode

/-- C3: `process_response` stamps `server_timestamp = Some ts` and
`sequence_ordinal = Some n` unconditionally, for every original text,
server text, timestamp and raw ordinal — in particular a raw ordinal of
`0` yields `Some 0`, never `None`. -/
theorem process_response_stamps_metadata (original modified : Str) (ts n : Nat) :
    (process_response original modified ts n).server_timestamp = some ts ∧
    (process_response original modified ts n).ordinal = some n :=
  ⟨rfl, rfl⟩

/-- C1: the echo-await branch of `send_group_message` is dead code.
`process_send_message_response` always produces `ordinal = Some _`
(`Some 0` when the response lacks the field), so the guard
`final_preprocessed.ordinal.is_none()` never holds and the result is
independent of whatever echo notifications arrive: the returned message
keeps `Some (response ordinal or 0)` and the synchronous timestamp,
contradicting the claimed backfill-or-`None` behaviour. -/
theorem send_group_message_ignores_echo_notifications
    (params : SendGroupMessageParams) (response : SendChatMessageResponse)
    (arrivals : List IncomingChatMessageNotification) :
    send_group_message params response arrivals =
      process_send_message_response params response ∧
    (send_group_message params response arrivals).ordinal =
      some (if response.has_ordinal then response.ordinal else 0) := by
  constructor <;>
    simp [send_group_message, process_send_message_response, process_response]

/-- C2 counterexample: on `"[spoiler]hidden[/spoiler]"` the parser does
not return the claimed three-element sequence
`[Tag(spoiler), Text("hidden"), Text("[/spoiler]")]`. -/
theorem parse_spoiler_not_three_segments :
    (parse_bbcode "[spoiler]hidden[/spoiler]".toList ==
      [BBCodeContent.node ⟨"spoiler".toList, none⟩,
       BBCodeContent.str "hidden".toList,
       BBCodeContent.str "[/spoiler]".toList]) = false := by decide

/-- C2 amended: on `"[spoiler]hidden[/spoiler]"` the parser returns the
two-element sequence `[Tag(spoiler), Text("hiddenhidden[/spoiler]")]`:
the rejected closing-marker span is appended to the pending literal
accumulator, which already holds the preceding literal `"hidden"` (the
rejected span includes that text a second time), and adjacent literals
are coalesced into a single `Text` element. -/
theorem parse_spoiler_actual_segments :
    parse_bbcode "[spoiler]hidden[/spoiler]".toList =
      [BBCodeContent.node ⟨"spoiler".toList, none⟩,
       BBCodeContent.str "hiddenhidden[/spoiler]".toList] := by decide

/-- C4: evaluating the parser at the failing input `"a[b]"` (the
allow-list does not contain `b`): the literal text before the rejected
bracket span is emitted twice, so the output reads back `"aa[b]"`, which
differs from the input — the claimed character-for-character
reconstruction fails. -/
theorem parse_duplicates_text_before_rejected_span :
    parse_bbcode "a[b]".toList = [BBCodeContent.str "aa[b]".toList] ∧
    ("aa[b]".toList == "a[b]".toList) = false := by
  constructor <;> decide

/-- C6: the empty string parses to exactly `[Text("")]`, and for every
allow-list and every input the parser output is non-empty. -/
theorem parse_empty_and_never_empty :
    parse_bbcode [] = [BBCodeContent.str []] ∧
    ∀ (allowed_tags : List Str) (message : Str),
      0 < (bbcode.parse allowed_tags message).length := by
  constructor
  · decide
  · intro allowed_tags message
    unfold bbcode.parse
    by_cases h : message = []
    · simp [h]
    · simp only [h, if_false]
      exact bbcode.parse_loop_length_pos allowed_tags message.length message [] []
        (Nat.le_refl _) (Or.inl h)

/-- The SteamID a single token contributes to `mention_steamids`: after
punctuation trimming, a token that is not one of the broadcast literals
(those return early), matches the `[U:1:` / `]` format check, and parses
successfully contributes its id; every other token contributes nothing. -/
def steam_token_contribution (token : Str) : Option Nat :=
  let cleaned := trim_mention_punctuation token
  if cleaned = MENTION_ALL then none
  else if cleaned = MENTION_HERE then none
  else if is_steam_id_format cleaned then steam_id_try_from cleaned
  else none

theorem mention_here_ne_all : MENTION_HERE ≠ MENTION_ALL := by decide

theorem beq_here_all_false : (MENTION_HERE == MENTION_ALL) = false := by decide

theorem beq_all_here_false : (MENTION_ALL == MENTION_HERE) = false := by decide

theorem process_mention_token_mention_all (token : Str) (m : ChatMentions) :
    (process_mention_token token m).mention_all =
      (m.mention_all || (trim_mention_punctuation token == MENTION_ALL)) := by
  unfold process_mention_token
  by_cases h1 : trim_mention_punctuation token = MENTION_ALL
  · simp [h1]
  · by_cases h2 : trim_mention_punctuation token = MENTION_HERE
    · simp [h1, h2, mention_here_ne_all, beq_here_all_false]
    · by_cases h3 : is_steam_id_format (trim_mention_punctuation token)
      · simp only [h1, h2, h3, if_false, if_true, if_neg, if_pos]
        cases steam_id_try_from (trim_mention_punctuation token) <;> simp [h1]
      · simp [h1, h2, h3]

theorem process_mention_token_mention_here (token : Str) (m : ChatMentions) :
    (process_mention_token token m).mention_here =
      (m.mention_here || (trim_mention_punctuation token == MENTION_HERE)) := by
  unfold process_mention_token
  by_cases h1 : trim_mention_punctuation token = MENTION_ALL
  · simp [h1, beq_all_here_false]
  · by_cases h2 : trim_mention_punctuation token = MENTION_HERE
    · simp [h1, h2, mention_here_ne_all]
    · by_cases h3 : is_steam_id_format (trim_mention_punctuation token)
      · simp only [h1, h2, h3, if_false, if_true, if_neg, if_pos]
        cases steam_id_try_from (trim_mention_punctuation token) <;> simp [h2]
      · simp [h1, h2, h3]

theorem process_mention_token_mention_steamids (token : Str) (m : ChatMentions) :
    (process_mention_token token m).mention_steamids =
      m.mention_steamids ++ (steam_token_contribution token).toList := by
  unfold process_mention_token steam_token_contribution
  by_cases h1 : trim_mention_punctuation token = MENTION_ALL
  · simp [h1]
  · by_cases h2 : trim_mention_punctuation token = MENTION_HERE
    · simp [h1, h2, mention_here_ne_all]
    · by_cases h3 : is_steam_id_format (trim_mention_punctuation token)
      · simp only [h1, h2, h3, if_false, if_true, if_neg, if_pos]
        cases hs : steam_id_try_from (trim_mention_punctuation token) <;> simp [hs]
      · simp [h1, h2, h3]

theorem foldl_process_mention_token (tokens : List Str) :
    ∀ m : ChatMentions,
      tokens.foldl (fun acc tok => process_mention_token tok acc) m =
        { mention_all := m.mention_all ||
            tokens.any (fun tok => trim_mention_punctuation tok == MENTION_ALL),
          mention_here := m.mention_here ||
            tokens.any (fun tok => trim_mention_punctuation tok == MENTION_HERE),
          mention_steamids := m.mention_steamids ++
            tokens.filterMap steam_token_contribution } := by
  induction tokens with
  | nil => intro m; simp
  | cons t ts ih =>
    intro m
    rw [List.foldl_cons, ih]
    have hids : (steam_token_contribution t).toList ++
        ts.filterMap steam_token_contribution =
        (t :: ts).filterMap steam_token_contribution := by
      cases h : steam_token_contribution t <;> simp [h, List.filterMap_cons]
    simp [process_mention_token_mention_all, process_mention_token_mention_here,
      process_mention_token_mention_steamids, List.any_cons, Bool.or_assoc,
      ← hids, List.append_assoc]

/-- C8: full characterization of `extract_mentions`.  The result is
`none` exactly when no token fired any of the three signals; otherwise it
is `some` of the struct whose flags record exactly which broadcast tokens
fired and whose id list is the per-token contributions in first-seen
order with duplicates preserved (a `filterMap` over the token stream);
malformed near-matches contribute nothing rather than failing. -/
theorem extract_mentions_characterization (message : Str) :
    extract_mentions message =
      (let fired_all := (split_whitespace message).any
          (fun tok => trim_mention_punctuation tok == MENTION_ALL)
       let fired_here := (split_whitespace message).any
          (fun tok => trim_mention_punctuation tok == MENTION_HERE)
       let ids := (split_whitespace message).filterMap steam_token_contribution
       if fired_all || fired_here || !ids.isEmpty then
         some ⟨fired_all, fired_here, ids⟩
       else none) := by
  unfold extract_mentions
  rw [foldl_process_mention_token]
  simp [ChatMentions.has_any_mentions]

/-- C5: the broadcast flags fire exactly when some whole
whitespace-delimited token, after punctuation trimming, equals the
broadcast literal — substring containment never triggers a match:
`extract_mentions "email@all.com" = none`, while the token `"@all!"`
(trimmed to `"@all"`) does match. -/
theorem mention_flags_are_whole_token_matches :
    (∀ message : Str,
      (extract_mentions message).elim false ChatMentions.mention_all =
        (split_whitespace message).any
          (fun tok => trim_mention_punctuation tok == MENTION_ALL) ∧
      (extract_mentions message).elim false ChatMentions.mention_here =
        (split_whitespace message).any
          (fun tok => trim_mention_punctuation tok == MENTION_HERE)) ∧
    extract_mentions "email@all.com".toList = none ∧
    extract_mentions "@all!".toList = some ⟨true, false, []⟩ := by
  refine ⟨?_, by decide, by decide⟩
  intro message
  rw [extract_mentions_characterization]
  by_cases hif : ((split_whitespace message).any
        (fun tok => trim_mention_punctuation tok == MENTION_ALL) ||
      (split_whitespace message).any
        (fun tok => trim_mention_punctuation tok == MENTION_HERE) ||
      !((split_whitespace message).filterMap steam_token_contribution).isEmpty) = true
  · simp [hif]
  · rw [Bool.not_eq_true] at hif
    simp only [Bool.or_eq_false_iff] at hif
    simp [hif.1.1, hif.1.2, hif]

theorem contains_sub_mono {hay a b : Str} (h : b <+: a) :
    contains_sub hay a = true → contains_sub hay b = true := by
  unfold contains_sub
  simp only [List.any_eq_true]
  rintro ⟨t, ht, hpre⟩
  exact ⟨t, ht, List.isPrefixOf_iff_prefix.mpr
    (h.trans (List.isPrefixOf_iff_prefix.mp hpre))⟩

/-- C10: `helpers::has_mentions` is equivalent to "the message contains
an `@` anywhere" (both broadcast-literal containment checks imply it),
and it disagrees with the extractor in both directions:
`"email@all.com"` satisfies `has_mentions` but extracts no mentions,
while `"ping [U:1:1531059355]"` extracts a user-id mention but fails
`has_mentions`. -/
theorem has_mentions_iff_contains_at :
    (∀ message : Str, helpers.has_mentions message = contains_sub message ['@']) ∧
    helpers.has_mentions "email@all.com".toList = true ∧
    extract_mentions "email@all.com".toList = none ∧
    helpers.has_mentions "ping [U:1:1531059355]".toList = false ∧
    extract_mentions "ping [U:1:1531059355]".toList =
      some ⟨false, false, [76561199491325083]⟩ := by
  refine ⟨?_, by decide, by decide, by decide, by decide⟩
  intro message
  unfold helpers.has_mentions
  by_cases hAt : contains_sub message ['@'] = true
  · simp [hAt]
  · have hA : contains_sub message MENTION_ALL = false := by
      by_contra hcontra
      rw [Bool.not_eq_false] at hcontra
      exact hAt (contains_sub_mono (by decide) hcontra)
    have hH : contains_sub message MENTION_HERE = false := by
      by_contra hcontra
      rw [Bool.not_eq_false] at hcontra
      exact hAt (contains_sub_mono (by decide) hcontra)
    rw [Bool.not_eq_true] at hAt
    simp [hA, hH, hAt]

/-- C9: `for_each` stops at the first failing item and never reconnects.
After a prefix of successfully handled items, a handler failure on the
next item ends the loop immediately — the failure is propagated to the
caller as a `Callback` error, no backoff sleep happens, and no later
item is consumed; a stream-level failure at that position ends the loop
after the fixed backoff sleep, surfacing the `Stream` error, again
without consuming any later item. -/
theorem for_each_stops_on_failure {T E C : Type}
    (handler : T → Except C Unit) (okpre : List T) (t : T) (e : E) (c : C)
    (post : List (Except E T))
    (hpre : ∀ x ∈ okpre, handler x = Except.ok ()) :
    (handler t = Except.error c →
      for_each handler (okpre.map Except.ok ++ Except.ok t :: post) =
        ⟨okpre ++ [t], false, Except.error (NotificationDispatchError.callback c)⟩) ∧
    for_each handler (okpre.map Except.ok ++ Except.error e :: post) =
      ⟨okpre, true, Except.error (NotificationDispatchError.stream e)⟩ := by
  induction okpre with
  | nil =>
    constructor
    · intro ht
      simp [for_each, ht]
    · simp [for_each]
  | cons x xs ih =>
    have hx : handler x = Except.ok () := hpre x (by simp)
    have ih' := ih (fun y hy => hpre y (by simp [hy]))
    constructor
    · intro ht
      simp only [List.map_cons, List.cons_append, for_each, hx, List.append_eq]
      rw [ih'.1 ht]
    · simp only [List.map_cons, List.cons_append, for_each, hx, List.append_eq]
      rw [ih'.2]

/-- C9 witness: the stop-on-failure fact at a concrete handler that
fails on item `0`, a concrete two-item successful prefix, and concrete
trailing items that are never consumed. -/
theorem for_each_stops_on_failure_witness :
    (for_each (fun n : Nat => if n = 0 then Except.error 5 else Except.ok ())
        ([1, 2].map Except.ok ++ Except.ok 0 :: [Except.error 9]) =
      ⟨[1, 2] ++ [0], false, Except.error (NotificationDispatchError.callback 5)⟩) ∧
    for_each (fun n : Nat => if n = 0 then Except.error 5 else Except.ok ())
        ([1, 2].map Except.ok ++ Except.error 9 :: [Except.ok 3]) =
      ⟨[1, 2], true, Except.error (NotificationDispatchError.stream 9)⟩ := by
  constructor
  · exact (for_each_stops_on_failure
      (fun n : Nat => if n = 0 then Except.error 5 else Except.ok ())
      [1, 2] 0 9 5 [Except.error 9]
      (by intro x hx; simp at hx; rcases hx with rfl | rfl <;> rfl)).1 rfl
  · exact (for_each_stops_on_failure
      (fun n : Nat => if n = 0 then Except.error 5 else Except.ok ())
      [1, 2] 0 9 5 [Except.ok 3]
      (by intro x hx; simp at hx; rcases hx with rfl | rfl <;> rfl)).2

theorem replace_all_loop_fuel_irrel (from_pat to_pat : Str) :
    ∀ (f1 f2 : Nat) (s : Str), s.length ≤ f1 → s.length ≤ f2 →
      replace_all_loop from_pat to_pat f1 s = replace_all_loop from_pat to_pat f2 s := by
  intro f1
  induction f1 with
  | zero =>
    intro f2 s h1 h2
    have hs : s = [] := List.eq_nil_of_length_eq_zero (Nat.le_zero.mp h1)
    subst hs
    cases f2 <;> simp [replace_all_loop]
  | succ f ih =>
    intro f2 s h1 h2
    cases s with
    | nil => cases f2 <;> simp [replace_all_loop]
    | cons c rest =>
      cases f2 with
      | zero => simp at h2
      | succ f2' =>
        simp only [replace_all_loop]
        by_cases hp : (from_pat.isPrefixOf (c :: rest) && !from_pat.isEmpty) = true
        · rw [if_pos hp, if_pos hp]
          congr 1
          have hlen : 1 ≤ from_pat.length := by
            cases from_pat
            · simp at hp
            · simp
          apply ih
          · simp only [List.length_drop, List.length_cons] at h1 ⊢
            omega
          · simp only [List.length_drop, List.length_cons] at h2 ⊢
            omega
        · rw [if_neg hp, if_neg hp]
          congr 1
          apply ih
          · simp only [List.length_cons] at h1
            omega
          · simp only [List.length_cons] at h2
            omega

theorem replace_all_cons (from_pat to_pat : Str) (c : Char) (rest : Str) :
    replace_all (c :: rest) from_pat to_pat =
      if from_pat.isPrefixOf (c :: rest) && !from_pat.isEmpty then
        to_pat ++ replace_all ((c :: rest).drop from_pat.length) from_pat to_pat
      else
        c :: replace_all rest from_pat to_pat := by
  unfold replace_all
  simp only [List.length_cons, replace_all_loop]
  by_cases hp : (from_pat.isPrefixOf (c :: rest) && !from_pat.isEmpty) = true
  · rw [if_pos hp, if_pos hp]
    congr 1
    have hlen : 1 ≤ from_pat.length := by
      cases from_pat
      · simp at hp
      · simp
    apply replace_all_loop_fuel_irrel
    · simp only [List.length_drop, List.length_cons]
      omega
    · exact Nat.le_refl _
  · rw [if_neg hp, if_neg hp]

/-- Specification-level reading of the outbound un-escaping: one left to
right pass over the raw text replacing each backslash-escaped bracket
sequence (`\[` by `[`, `\]` by `]`) and copying every other character. -/
def unescape_brackets_spec : Str → Str
  | [] => []
  | [c] => [c]
  | c :: d :: rest =>
    if c = '\\' ∧ (d = '[' ∨ d = ']') then d :: unescape_brackets_spec rest
    else c :: unescape_brackets_spec (d :: rest)

theorem unescape_esc_lbracket (rest : Str) :
    unescape_brackets_spec ('\\' :: '[' :: rest) = '[' :: unescape_brackets_spec rest := by
  simp [unescape_brackets_spec]

theorem unescape_esc_rbracket (rest : Str) :
    unescape_brackets_spec ('\\' :: ']' :: rest) = ']' :: unescape_brackets_spec rest := by
  simp [unescape_brackets_spec]

theorem unescape_cons_other (c d : Char) (rest : Str)
    (h : ¬(c = '\\' ∧ (d = '[' ∨ d = ']'))) :
    unescape_brackets_spec (c :: d :: rest) =
      c :: unescape_brackets_spec (d :: rest) := by
  simp only [unescape_brackets_spec]
  rw [if_neg h]

theorem replace_first_pass_head (t : Str) (h : t.head? ≠ some ']') :
    (replace_all t ['\\', '['] ['[']).head? ≠ some ']' := by
  cases t with
  | nil => simp [replace_all, replace_all_loop]
  | cons c rest =>
    rw [replace_all_cons]
    by_cases hp : ((['\\', '['] : Str).isPrefixOf (c :: rest) &&
        !(['\\', '['] : Str).isEmpty) = true
    · rw [if_pos hp]
      simp
    · rw [if_neg hp]
      simpa using h

theorem unescape_aux : ∀ (n : Nat) (s : Str), s.length ≤ n →
    replace_all (replace_all s ['\\', '['] ['[']) ['\\', ']'] [']'] =
      unescape_brackets_spec s := by
  intro n
  induction n with
  | zero =>
    intro s hlen
    have hs : s = [] := List.eq_nil_of_length_eq_zero (Nat.le_zero.mp hlen)
    subst hs
    rfl
  | succ n ih =>
    intro s hlen
    cases s with
    | nil => rfl
    | cons c rest =>
      by_cases hc : c = '\\'
      · subst hc
        cases rest with
        | nil => rfl
        | cons d rest' =>
          by_cases hd1 : d = '['
          · subst hd1
            have hA : replace_all ('\\' :: '[' :: rest') ['\\', '['] ['['] =
                '[' :: replace_all rest' ['\\', '['] ['['] := by
              rw [replace_all_cons, if_pos (by simp +decide [List.isPrefixOf])]
              rfl
            rw [hA, replace_all_cons, if_neg (by simp +decide [List.isPrefixOf]),
              unescape_esc_lbracket]
            exact congrArg (List.cons '[')
              (ih rest' (by simp only [List.length_cons] at hlen; omega))
          · by_cases hd2 : d = ']'
            · subst hd2
              have hA : replace_all ('\\' :: ']' :: rest') ['\\', '['] ['['] =
                  '\\' :: ']' :: replace_all rest' ['\\', '['] ['['] := by
                rw [replace_all_cons, if_neg (by simp +decide [List.isPrefixOf]),
                  replace_all_cons, if_neg (by simp +decide [List.isPrefixOf])]
              rw [hA, replace_all_cons, if_pos (by simp +decide [List.isPrefixOf]),
                unescape_esc_rbracket]
              exact congrArg (List.cons ']')
                (ih rest' (by simp only [List.length_cons] at hlen; omega))
            · have hbd : (('[' : Char) == d) = false := by
                by_contra hcontra
                rw [Bool.not_eq_false] at hcontra
                exact hd1 (eq_of_beq hcontra).symm
              have hA : replace_all ('\\' :: d :: rest') ['\\', '['] ['['] =
                  '\\' :: replace_all (d :: rest') ['\\', '['] ['['] := by
                rw [replace_all_cons, if_neg (by simp +decide [List.isPrefixOf, hbd])]
              have hcond : ((['\\', ']'] : Str).isPrefixOf
                  ('\\' :: replace_all (d :: rest') ['\\', '['] ['[']) &&
                  !(['\\', ']'] : Str).isEmpty) = false := by
                cases hX : replace_all (d :: rest') ['\\', '['] ['['] with
                | nil => simp +decide [List.isPrefixOf]
                | cons x xs =>
                  have hxne : x ≠ ']' := by
                    have hh := replace_first_pass_head (d :: rest') (by simpa using hd2)
                    rw [hX] at hh
                    simpa using hh
                  have hbx : ((']' : Char) == x) = false := by
                    by_contra hcontra
                    rw [Bool.not_eq_false] at hcontra
                    exact hxne (eq_of_beq hcontra).symm
                  simp +decide [List.isPrefixOf, hbx]
              rw [hA, replace_all_cons, if_neg (by rw [hcond]; simp),
                unescape_cons_other _ _ _ (by tauto)]
              exact congrArg (List.cons '\\')
                (ih (d :: rest') (by simp only [List.length_cons] at hlen ⊢; omega))
      · have hbc : (('\\' : Char) == c) = false := by
          by_contra hcontra
          rw [Bool.not_eq_false] at hcontra
          exact hc (eq_of_beq hcontra).symm
        have hA : replace_all (c :: rest) ['\\', '['] ['['] =
            c :: replace_all rest ['\\', '['] ['['] := by
          rw [replace_all_cons, if_neg (by simp +decide [List.isPrefixOf, hbc])]
        rw [hA, replace_all_cons, if_neg (by simp +decide [List.isPrefixOf, hbc])]
        cases rest with
        | nil => rfl
        | cons d rest' =>
          rw [unescape_cons_other _ _ _ (by tauto)]
          exact congrArg (List.cons c)
            (ih (d :: rest') (by simp only [List.length_cons] at hlen ⊢; omega))

theorem prepare_message_for_sending_eq_unescape (message : Str) :
    prepare_message_for_sending message = unescape_brackets_spec message :=
  unescape_aux message.length message (Nat.le_refl _)

/-- C7: the outbound wire text is exactly the raw text with every
backslash-escaped bracket un-escaped (`\[` to `[`, `\]` to `]`), this
un-escaping is the only transformation `build_send_message_request`
applies (ids and echo flag are copied verbatim), and the provisional
record built by `preprocess_message` runs the parser and the extractor
over the raw, still-escaped text unchanged. -/
theorem wire_text_unescapes_brackets :
    (∀ params : SendGroupMessageParams,
      (build_send_message_request params).message =
        unescape_brackets_spec params.message ∧
      (build_send_message_request params).chat_group_id = params.chat_group_id ∧
      (build_send_message_request params).chat_id = params.chat_id ∧
      (build_send_message_request params).echo_to_sender = params.echo_to_sender) ∧
    ∀ message : Str,
      (preprocess_message message).message_bbcode_parsed = parse_bbcode message ∧
      (preprocess_message message).mentions = extract_mentions message ∧
      (preprocess_message message).original_message = message ∧
      (preprocess_message message).modified_message = message := by
  constructor
  · intro params
    exact ⟨prepare_message_for_sending_eq_unescape params.message, rfl, rfl, rfl⟩
  · intro message
    exact ⟨rfl, rfl, rfl, rfl⟩
